import Mathlib

/-!
Verification of the DAZER parent-database engine.

This file gives a shallow embedding, in Lean 4, of the pure core of the
`dockalyzer/dazer` repository:

* `DAZER/dockerhub_api.py`, function `get_image_parent` (the ancestry
  resolver over the loaded parent database);
* `populate_parent_db.py`, functions `get_layers_image` (streaming layer
  extraction with its retry loop), `get_layers_official_repository`
  (duplicate-filtered insertion), `update_official_database` (the staleness
  watermark and the per-repository update pass, plus the try/except control
  skeleton), and `verify_duplicates` (cross-repository duplicate flagging).

Strings from the Python source are modelled as `String` where they are only
compared for equality, and layer sequences as `List Char` where the code
slices them.  Python dicts loaded from the JSON database are modelled as
association lists (Python 3.7 dicts iterate in insertion order).  Epoch
timestamps are modelled as `Int` (Python ints, with true subtraction).
-/

namespace Dazer

/-- One image record of the parent database, as serialized in
`populate_parent_db.py` (module docstring, lines 4-40): the keys
`fs_layers`, `image_tag`, `last_updated`, `created`. -/
structure ImageRecord where
  fs_layers : List Char
  image_tag : String
  last_updated : Int
  created : Int
deriving DecidableEq

/-- The parent database: repository name to list of image records, in dict
insertion order (`populate_parent_db.py` module docstring). -/
abbrev ParentDb := List (String × List ImageRecord)

/-- Dictionary lookup `base_db[repo]`, first binding wins (keys of a Python
dict are unique). -/
def lookupDb : ParentDb → String → List ImageRecord
  | [], _ => []
  | (r, imgs) :: rest, repo => if r = repo then imgs else lookupDb rest repo

/-- The token split of `get_image_parent` (`dockerhub_api.py` line 715):
`[image_layers[id:id + 12] for id in range(0, len(image_layers), 12)]`. -/
def splitTokens (s : List Char) : List (List Char) :=
  if h : s = [] then [] else s.take 12 :: splitTokens (s.drop 12)
termination_by s.length
decreasing_by
  simp only [List.length_drop]
  exact Nat.sub_lt (List.length_pos.mpr h) (by decide)

/-- The record scan of `get_image_parent` (`dockerhub_api.py` lines 751-758):
for each image of one repository, if `current_layers == image.fs_layers`,
overwrite the previously recorded parent. -/
def scanImages (repo : String) (imgs : List ImageRecord) (cur : List Char)
    (p : Option (String × String)) : Option (String × String) :=
  imgs.foldl (fun acc img => if cur = img.fs_layers then some (repo, img.image_tag) else acc) p

/-- The repository scan of `get_image_parent` (`dockerhub_api.py` lines
750-758): visit every candidate repository in dict order. -/
def scanRepos (db : ParentDb) (repos : List String) (cur : List Char)
    (p : Option (String × String)) : Option (String × String) :=
  repos.foldl (fun acc repo => scanImages repo (lookupDb db repo) cur acc) p

/-- The candidate repository list of `get_image_parent` (`dockerhub_api.py`
lines 734-736): all the keys of the database, in dict order, without the
first occurrence of the owning repository (`repositories.index` plus
slicing; when the owning repository is absent the `ValueError` is swallowed
by the bare `except` and the full key list is kept, which is exactly
`List.erase`). -/
def candidates (db : ParentDb) (repository : String) : List String :=
  (db.map Prod.fst).erase repository

/-- Shallow embedding of `get_image_parent` (`dockerhub_api.py` lines
694-762) after the database file has been loaded into `base_db`:
split `image_layers` into 12-character tokens, then walk the accumulating
prefix over all candidate records, overwriting `parent` on every exact
match.  `none` models the empty dict returned when nothing matched. -/
def get_image_parent (db : ParentDb) (repository : String) (image_layers : List Char) :
    Option (String × String) :=
  let image_ids := splitTokens image_layers
  let repositories := candidates db repository
  (image_ids.foldl
    (fun st tok =>
      let cur := st.1 ++ tok
      (cur, scanRepos db repositories cur st.2))
    (([] : List Char), (none : Option (String × String)))).2

/-- The last record of `imgs` whose `fs_layers` equals `cur` (the record
whose match survives the overwriting scan of `scanImages`). -/
def lastMatch (cur : List Char) : List ImageRecord → Option ImageRecord
  | [] => none
  | img :: rest =>
    match lastMatch cur rest with
    | some i => some i
    | none => if img.fs_layers = cur then some img else none

/-- The last `(repository, record)` match for `cur` over the candidate
repositories in scan order. -/
def lastRepoMatch (db : ParentDb) (cur : List Char) : List String → Option (String × ImageRecord)
  | [] => none
  | repo :: rest =>
    match lastRepoMatch db cur rest with
    | some x => some x
    | none =>
      match lastMatch cur (lookupDb db repo) with
      | some i => some (repo, i)
      | none => none

/-- The match recorded by the full prefix walk starting from accumulated
prefix `cur`: later (longer) prefixes take priority, and at a fixed prefix
the last match in scan order wins. -/
def bestMatch (db : ParentDb) (repos : List String) : List (List Char) → List Char →
    Option (String × ImageRecord)
  | [], _ => none
  | tok :: rest, cur =>
    match bestMatch db repos rest (cur ++ tok) with
    | some x => some x
    | none => lastRepoMatch db (cur ++ tok) repos

/-- Some candidate repository contains a record whose full `fs_layers`
equals `cur`. -/
def candidateMatch (db : ParentDb) (repos : List String) (cur : List Char) : Prop :=
  ∃ repo ∈ repos, ∃ i ∈ lookupDb db repo, i.fs_layers = cur

instance (db : ParentDb) (repos : List String) (cur : List Char) :
    Decidable (candidateMatch db repos cur) := by
  unfold candidateMatch
  infer_instance

theorem lastMatch_some (cur : List Char) (imgs : List ImageRecord) (i : ImageRecord)
    (h : lastMatch cur imgs = some i) : i ∈ imgs ∧ i.fs_layers = cur := by
  induction imgs with
  | nil => simp [lastMatch] at h
  | cons img rest ih =>
    rw [lastMatch] at h
    cases hrest : lastMatch cur rest with
    | some j =>
      rw [hrest] at h
      simp only [Option.some_inj] at h
      obtain ⟨hm, hl⟩ := ih (by rw [hrest, h])
      exact ⟨List.mem_cons_of_mem _ hm, hl⟩
    | none =>
      rw [hrest] at h
      by_cases hc : img.fs_layers = cur
      · rw [if_pos hc, Option.some_inj] at h
        exact ⟨by simp [← h], by rw [← h]; exact hc⟩
      · simp [hc] at h

theorem lastMatch_none_iff (cur : List Char) (imgs : List ImageRecord) :
    lastMatch cur imgs = none ↔ ∀ i ∈ imgs, i.fs_layers ≠ cur := by
  induction imgs with
  | nil => simp [lastMatch]
  | cons img rest ih =>
    rw [lastMatch]
    cases hrest : lastMatch cur rest with
    | some j =>
      simp only [List.mem_cons]
      constructor
      · intro h; cases h
      · intro h
        exact absurd (ih.mpr fun i hi => h i (Or.inr hi))
          (by rw [hrest]; simp)
    | none =>
      by_cases hc : img.fs_layers = cur
      · simp [hc]
      · simp only [hc, if_neg hc, List.mem_cons]
        constructor
        · intro _ i hi
          rcases hi with h1 | h2
          · rw [h1]; exact hc
          · exact (ih.mp hrest) i h2
        · intro _; rfl

theorem lastMatch_eq_of_unique (cur : List Char) (imgs : List ImageRecord) (B : ImageRecord)
    (hB : B ∈ imgs) (hlay : B.fs_layers = cur)
    (huniq : ∀ i ∈ imgs, i.fs_layers = cur → i = B) :
    lastMatch cur imgs = some B := by
  induction imgs with
  | nil => cases hB
  | cons img rest ih =>
    rw [lastMatch]
    by_cases hmem : B ∈ rest
    · rw [ih hmem (fun i hi hl => huniq i (List.mem_cons_of_mem _ hi) hl)]
    · have hBi : B = img := by
        rcases List.mem_cons.mp hB with h | h
        · exact h
        · exact absurd h hmem
      have hnone : lastMatch cur rest = none := by
        rw [lastMatch_none_iff]
        intro i hi hl
        exact hmem (by rw [← huniq i (List.mem_cons_of_mem _ hi) hl]; exact hi)
      rw [hnone, ← hBi, if_pos hlay]

theorem lastRepoMatch_some (db : ParentDb) (cur : List Char) (repos : List String)
    (repo : String) (i : ImageRecord) (h : lastRepoMatch db cur repos = some (repo, i)) :
    repo ∈ repos ∧ i ∈ lookupDb db repo ∧ i.fs_layers = cur := by
  induction repos with
  | nil => simp [lastRepoMatch] at h
  | cons r rest ih =>
    rw [lastRepoMatch] at h
    cases hrest : lastRepoMatch db cur rest with
    | some x =>
      rw [hrest] at h
      simp only [Option.some_inj] at h
      obtain ⟨hm, hl, hc⟩ := ih (by rw [hrest, h])
      exact ⟨List.mem_cons_of_mem _ hm, hl, hc⟩
    | none =>
      rw [hrest] at h
      cases hlast : lastMatch cur (lookupDb db r) with
      | some j =>
        rw [hlast] at h
        simp only [Option.some_inj, Prod.mk.injEq] at h
        obtain ⟨hm, hl⟩ := lastMatch_some cur _ j hlast
        exact ⟨by rw [← h.1]; exact List.mem_cons_self _ _,
               by rw [← h.1, ← h.2]; exact hm, by rw [← h.2]; exact hl⟩
      | none => rw [hlast] at h; cases h

theorem lastRepoMatch_none_iff (db : ParentDb) (cur : List Char) (repos : List String) :
    lastRepoMatch db cur repos = none ↔ ¬ candidateMatch db repos cur := by
  induction repos with
  | nil => simp [lastRepoMatch, candidateMatch]
  | cons r rest ih =>
    rw [lastRepoMatch]
    cases hrest : lastRepoMatch db cur rest with
    | some x =>
      simp only []
      constructor
      · intro h; cases h
      · intro h
        rcases x with ⟨repo, i⟩
        obtain ⟨hm, hl, hc⟩ := lastRepoMatch_some db cur rest repo i hrest
        exact absurd ⟨repo, List.mem_cons_of_mem _ hm, i, hl, hc⟩ h
    | none =>
      cases hlast : lastMatch cur (lookupDb db r) with
      | some j =>
        simp only []
        constructor
        · intro h; cases h
        · intro h
          obtain ⟨hm, hl⟩ := lastMatch_some cur _ j hlast
          exact absurd ⟨r, List.mem_cons_self _ _, j, hm, hl⟩ h
      | none =>
        simp only []
        constructor
        · intro _ hcand
          obtain ⟨repo, hrepo, i, hi, hl⟩ := hcand
          rcases List.mem_cons.mp hrepo with h1 | h2
          · rw [h1] at hi
            exact absurd hl (((lastMatch_none_iff cur _).mp hlast) i hi)
          · exact (ih.mp hrest) ⟨repo, h2, i, hi, hl⟩
        · intro _; trivial

theorem lastRepoMatch_of_last (db : ParentDb) (cur : List Char)
    (l₁ l₂ : List String) (rb : String) (B : ImageRecord)
    (hlast : lastMatch cur (lookupDb db rb) = some B)
    (hafter : ∀ repo ∈ l₂, lastMatch cur (lookupDb db repo) = none) :
    lastRepoMatch db cur (l₁ ++ rb :: l₂) = some (rb, B) := by
  have htail : lastRepoMatch db cur (rb :: l₂) = some (rb, B) := by
    rw [lastRepoMatch]
    have h2 : lastRepoMatch db cur l₂ = none := by
      rw [lastRepoMatch_none_iff]
      intro hcand
      obtain ⟨repo, hrepo, i, hi, hl⟩ := hcand
      exact absurd hl (((lastMatch_none_iff cur _).mp (hafter repo hrepo)) i hi)
    rw [h2, hlast]
  induction l₁ with
  | nil => exact htail
  | cons r rest ih =>
    rw [List.cons_append, lastRepoMatch, ih]

theorem scanImages_eq (repo : String) (imgs : List ImageRecord) (cur : List Char) :
    ∀ p, scanImages repo imgs cur p =
      match lastMatch cur imgs with
      | some i => some (repo, i.image_tag)
      | none => p := by
  induction imgs with
  | nil => intro p; simp [scanImages, lastMatch]
  | cons img rest ih =>
    intro p
    rw [scanImages, List.foldl_cons, ← scanImages, ih, lastMatch]
    cases hrest : lastMatch cur rest with
    | some i => rfl
    | none =>
      by_cases hc : img.fs_layers = cur
      · rw [if_pos hc, if_pos hc.symm]
      · rw [if_neg hc, if_neg (fun h => hc h.symm)]

theorem scanRepos_eq (db : ParentDb) (repos : List String) (cur : List Char) :
    ∀ p, scanRepos db repos cur p =
      match lastRepoMatch db cur repos with
      | some x => some (x.1, x.2.image_tag)
      | none => p := by
  induction repos with
  | nil => intro p; simp [scanRepos, lastRepoMatch]
  | cons r rest ih =>
    intro p
    rw [scanRepos, List.foldl_cons, ← scanRepos, ih, lastRepoMatch]
    cases hrest : lastRepoMatch db cur rest with
    | some x => rfl
    | none =>
      rw [scanImages_eq]
      cases hlast : lastMatch cur (lookupDb db r) with
      | some i => rfl
      | none => rfl

theorem prefix_walk_eq (db : ParentDb) (repos : List String) :
    ∀ (toks : List (List Char)) (cur : List Char) (p : Option (String × String)),
      (toks.foldl
        (fun st tok =>
          let c := st.1 ++ tok
          (c, scanRepos db repos c st.2)) (cur, p)).2 =
      match bestMatch db repos toks cur with
      | some x => some (x.1, x.2.image_tag)
      | none => p := by
  intro toks
  induction toks with
  | nil => intro cur p; simp [bestMatch]
  | cons tok rest ih =>
    intro cur p
    rw [List.foldl_cons, bestMatch]
    simp only []
    rw [ih]
    cases hrest : bestMatch db repos rest (cur ++ tok) with
    | some x => rfl
    | none => rw [scanRepos_eq]

theorem take_cons_join (tok : List Char) (rest : List (List Char)) (cur : List Char) (j : Nat) :
    cur ++ ((tok :: rest).take (j + 1)).flatten = (cur ++ tok) ++ (rest.take j).flatten := by
  simp [List.take_succ_cons, List.append_assoc]

theorem bestMatch_none_iff (db : ParentDb) (repos : List String) :
    ∀ (toks : List (List Char)) (cur : List Char),
      bestMatch db repos toks cur = none ↔
        ∀ k, 1 ≤ k → k ≤ toks.length →
          ¬ candidateMatch db repos (cur ++ (toks.take k).flatten) := by
  intro toks
  induction toks with
  | nil =>
    intro cur
    simp only [bestMatch, List.length_nil, true_iff]
    intro k h1 h2
    omega
  | cons tok rest ih =>
    intro cur
    rw [bestMatch]
    constructor
    · intro h k h1 h2
      cases hb : bestMatch db repos rest (cur ++ tok) with
      | some x => rw [hb] at h; cases h
      | none =>
        rw [hb] at h
        match k, h1 with
        | 1, _ =>
          have heq : cur ++ ((tok :: rest).take 1).flatten = cur ++ tok := by
            rw [take_cons_join]; simp
          rw [heq]
          exact (lastRepoMatch_none_iff db _ repos).mp h
        | (j + 2), _ =>
          rw [take_cons_join]
          exact (ih (cur ++ tok)).mp hb (j + 1) (by omega)
            (by simp only [List.length_cons] at h2; omega)
    · intro h
      have h1 : bestMatch db repos rest (cur ++ tok) = none := by
        rw [ih]
        intro j hj1 hj2
        have := h (j + 1) (by omega) (by simp only [List.length_cons]; omega)
        rw [take_cons_join] at this
        exact this
      rw [h1, lastRepoMatch_none_iff]
      have := h 1 (by omega) (by simp only [List.length_cons]; omega)
      have heq : cur ++ ((tok :: rest).take 1).flatten = cur ++ tok := by
        rw [take_cons_join]; simp
      rw [heq] at this
      exact this

theorem bestMatch_some_spec (db : ParentDb) (repos : List String) :
    ∀ (toks : List (List Char)) (cur : List Char) (x : String × ImageRecord),
      bestMatch db repos toks cur = some x →
      ∃ k, 1 ≤ k ∧ k ≤ toks.length ∧ x.1 ∈ repos ∧ x.2 ∈ lookupDb db x.1 ∧
        x.2.fs_layers = cur ++ (toks.take k).flatten ∧
        ∀ j, k < j → j ≤ toks.length →
          ¬ candidateMatch db repos (cur ++ (toks.take j).flatten) := by
  intro toks
  induction toks with
  | nil => intro cur x h; simp [bestMatch] at h
  | cons tok rest ih =>
    intro cur x h
    rw [bestMatch] at h
    cases hb : bestMatch db repos rest (cur ++ tok) with
    | some y =>
      rw [hb] at h
      simp only [Option.some_inj] at h
      obtain ⟨k, hk1, hk2, hm, hl, hf, hmax⟩ := ih (cur ++ tok) x (by rw [hb, h])
      refine ⟨k + 1, by omega, by simp only [List.length_cons]; omega, hm, hl, ?_, ?_⟩
      · rw [take_cons_join]; exact hf
      · intro j hj1 hj2
        match j, hj1 with
        | (j' + 2), _ =>
          rw [take_cons_join]
          exact hmax (j' + 1) (by omega) (by simp only [List.length_cons] at hj2; omega)
    | none =>
      rw [hb] at h
      obtain ⟨r0, i0⟩ := x
      obtain ⟨hm, hl, hf⟩ := lastRepoMatch_some db (cur ++ tok) repos r0 i0 h
      refine ⟨1, by omega, by simp only [List.length_cons]; omega, hm, hl, ?_, ?_⟩
      · have heq : cur ++ ((tok :: rest).take 1).flatten = cur ++ tok := by
          rw [take_cons_join]; simp
        rw [heq]; exact hf
      · intro j hj1 hj2
        match j, hj1 with
        | (j' + 2), _ =>
          rw [take_cons_join]
          exact (bestMatch_none_iff db repos rest (cur ++ tok)).mp hb (j' + 1) (by omega)
            (by simp only [List.length_cons] at hj2; omega)

theorem bestMatch_of_longest (db : ParentDb) (repos : List String) :
    ∀ (toks : List (List Char)) (cur : List Char) (k : Nat) (x : String × ImageRecord),
      1 ≤ k → k ≤ toks.length →
      (∀ j, k < j → j ≤ toks.length →
        ¬ candidateMatch db repos (cur ++ (toks.take j).flatten)) →
      lastRepoMatch db (cur ++ (toks.take k).flatten) repos = some x →
      bestMatch db repos toks cur = some x := by
  intro toks
  induction toks with
  | nil =>
    intro cur k x h1 h2 _ _
    simp only [List.length_nil] at h2
    omega
  | cons tok rest ih =>
    intro cur k x h1 h2 hmax hlast
    rw [bestMatch]
    match k, h1 with
    | 1, _ =>
      have hnone : bestMatch db repos rest (cur ++ tok) = none := by
        rw [bestMatch_none_iff]
        intro j hj1 hj2
        have := hmax (j + 1) (by omega) (by simp only [List.length_cons]; omega)
        rw [take_cons_join] at this
        exact this
      rw [hnone]
      have heq : cur ++ ((tok :: rest).take 1).flatten = cur ++ tok := by
        rw [take_cons_join]; simp
      rw [heq] at hlast
      exact hlast
    | (k' + 2), _ =>
      have hstep : bestMatch db repos rest (cur ++ tok) = some x := by
        apply ih (cur ++ tok) (k' + 1) x (by omega)
          (by simp only [List.length_cons] at h2; omega)
        · intro j hj1 hj2
          have := hmax (j + 1) (by omega) (by simp only [List.length_cons]; omega)
          rw [take_cons_join] at this
          exact this
        · rw [← take_cons_join]
          exact hlast
      rw [hstep]

theorem splitTokens_append (t rest : List Char) (h : t.length = 12) :
    splitTokens (t ++ rest) = t :: splitTokens rest := by
  rw [splitTokens]
  have hne : ¬ (t ++ rest = []) := by
    intro hh
    have := congrArg List.length hh
    simp [h] at this
  rw [dif_neg hne]
  congr 1
  · rw [List.take_append_eq_append_take, h, Nat.sub_self, List.take_zero,
      List.append_nil, ← h, List.take_length]
  · rw [List.drop_append_eq_append_drop, h, Nat.sub_self, List.drop_zero,
      ← h, List.drop_length, List.nil_append]

theorem splitTokens_join (toks : List (List Char)) (h : ∀ t ∈ toks, t.length = 12) :
    splitTokens toks.flatten = toks := by
  induction toks with
  | nil => rw [List.flatten_nil, splitTokens, dif_pos rfl]
  | cons t rest ih =>
    rw [List.flatten_cons, splitTokens_append t rest.flatten (h t (List.mem_cons_self _ _)),
      ih (fun u hu => h u (List.mem_cons_of_mem _ hu))]

theorem join_take_length (toks : List (List Char)) (h : ∀ t ∈ toks, t.length = 12) :
    ∀ k, k ≤ toks.length → ((toks.take k).flatten).length = 12 * k := by
  induction toks with
  | nil =>
    intro k hk
    simp only [List.length_nil] at hk
    have hk0 : k = 0 := by omega
    subst hk0
    simp
  | cons t rest ih =>
    intro k hk
    match k with
    | 0 => simp
    | (j + 1) =>
      rw [List.take_succ_cons, List.flatten_cons, List.length_append,
        h t (List.mem_cons_self _ _),
        ih (fun u hu => h u (List.mem_cons_of_mem _ hu)) j
          (by simp only [List.length_cons] at hk; omega)]
      ring

theorem get_image_parent_eq (db : ParentDb) (r : String) (toks : List (List Char))
    (h : ∀ t ∈ toks, t.length = 12) :
    get_image_parent db r toks.flatten =
      match bestMatch db (candidates db r) toks [] with
      | some x => some (x.1, x.2.image_tag)
      | none => none := by
  unfold get_image_parent
  rw [splitTokens_join toks h, prefix_walk_eq]

/-- C1: for every parent database `db`, owning repository `r` and non-empty
target layer sequence that is a concatenation of 12-character tokens,
`get_image_parent` examines every token-aligned prefix in increasing length
and (1) returns `none` when no prefix matches any candidate record,
(2) otherwise returns the `(repository, tag)` of a record of a candidate
repository (a repository other than `r`) whose full `fs_layers` equals the
longest token-aligned prefix matched by any candidate record, and (3) in
particular, when records `A` and `B` lie in different candidate
repositories, `A.fs_layers` is a shorter token-aligned prefix of the target
than `B.fs_layers`, and `B.fs_layers` is the longest matched prefix, the
returned record carries `B`'s layers, not `A`'s. -/
theorem resolve_parent_longest_match (db : ParentDb) (r : String)
    (toks : List (List Char)) (hne : toks ≠ []) (hlen : ∀ t ∈ toks, t.length = 12) :
    ((∀ k, 1 ≤ k → k ≤ toks.length →
        ¬ candidateMatch db (candidates db r) ((toks.take k).flatten)) →
      get_image_parent db r toks.flatten = none)
    ∧ ((∃ k, 1 ≤ k ∧ k ≤ toks.length ∧
          candidateMatch db (candidates db r) ((toks.take k).flatten)) →
      ∃ kmax repo i, 1 ≤ kmax ∧ kmax ≤ toks.length ∧
        repo ∈ candidates db r ∧ i ∈ lookupDb db repo ∧
        i.fs_layers = (toks.take kmax).flatten ∧
        (∀ j, 1 ≤ j → j ≤ toks.length →
          candidateMatch db (candidates db r) ((toks.take j).flatten) → j ≤ kmax) ∧
        get_image_parent db r toks.flatten = some (repo, i.image_tag))
    ∧ (∀ ra rb A B ka kb, ra ∈ candidates db r → rb ∈ candidates db r → ra ≠ rb →
        A ∈ lookupDb db ra → B ∈ lookupDb db rb →
        A.fs_layers = (toks.take ka).flatten → B.fs_layers = (toks.take kb).flatten →
        1 ≤ ka → ka < kb → kb ≤ toks.length →
        (∀ j, kb < j → j ≤ toks.length →
          ¬ candidateMatch db (candidates db r) ((toks.take j).flatten)) →
        ∃ (repo : String) (i : ImageRecord),
          get_image_parent db r toks.flatten = some (repo, i.image_tag) ∧
          i.fs_layers = B.fs_layers ∧ i.fs_layers ≠ A.fs_layers) := by
  refine ⟨?_, ?_, ?_⟩
  · intro h
    rw [get_image_parent_eq db r toks hlen]
    have hnone : bestMatch db (candidates db r) toks [] = none := by
      rw [bestMatch_none_iff]
      intro k h1 h2
      rw [List.nil_append]
      exact h k h1 h2
    rw [hnone]
  · rintro ⟨k, hk1, hk2, hkm⟩
    cases hb : bestMatch db (candidates db r) toks [] with
    | none =>
      have := (bestMatch_none_iff db (candidates db r) toks []).mp hb k hk1 hk2
      rw [List.nil_append] at this
      exact absurd hkm this
    | some x =>
      obtain ⟨kmax, h1, h2, hm, hl, hf, hmax⟩ := bestMatch_some_spec db _ toks [] x hb
      rw [List.nil_append] at hf
      refine ⟨kmax, x.1, x.2, h1, h2, hm, hl, hf, ?_, ?_⟩
      · intro j hj1 hj2 hjm
        by_contra hgt
        push_neg at hgt
        have := hmax j hgt hj2
        rw [List.nil_append] at this
        exact this hjm
      · rw [get_image_parent_eq db r toks hlen, hb]
  · intro ra rb A B ka kb hra hrb hrarb hA hB hAl hBl hka hkab hkb hmax
    have hkb1 : 1 ≤ kb := by omega
    have hcand : candidateMatch db (candidates db r) ((toks.take kb).flatten) :=
      ⟨rb, hrb, B, hB, hBl⟩
    cases hb : bestMatch db (candidates db r) toks [] with
    | none =>
      have := (bestMatch_none_iff db (candidates db r) toks []).mp hb kb hkb1 hkb
      rw [List.nil_append] at this
      exact absurd hcand this
    | some x =>
      obtain ⟨kmax, h1, h2, hm, hl, hf, hmaxspec⟩ := bestMatch_some_spec db _ toks [] x hb
      rw [List.nil_append] at hf
      have hble : kb ≤ kmax := by
        by_contra hlt
        push_neg at hlt
        have := hmaxspec kb hlt hkb
        rw [List.nil_append] at this
        exact this hcand
      have hgeq : kmax ≤ kb := by
        by_contra hlt
        push_neg at hlt
        exact hmax kmax hlt h2 ⟨x.1, hm, x.2, hl, hf⟩
      have hkeq : kmax = kb := by omega
      refine ⟨x.1, x.2, ?_, ?_, ?_⟩
      · rw [get_image_parent_eq db r toks hlen, hb]
      · rw [hf, hkeq, ← hBl]
      · intro heq
        rw [hf, hkeq, hAl] at heq
        have hlen1 := join_take_length toks hlen kb hkb
        have hlen2 := join_take_length toks hlen ka (by omega)
        have := congrArg List.length heq
        rw [hlen1, hlen2] at this
        omega

/-- Database used by the C1 witness: repository `"base"` owns a one-token
record, `"mid"` owns a two-token record that extends it, and `"top"` is the
owning repository of the query. -/
def c1db : ParentDb :=
  [("top", []),
   ("base", [⟨"aaaaaaaaaaaa".toList, "1.0", 5, 5⟩]),
   ("mid", [⟨("aaaaaaaaaaaa" ++ "bbbbbbbbbbbb").toList, "2.0", 7, 7⟩])]

/-- Token list used by the C1 witness (a two-token target). -/
def c1toks : List (List Char) := ["aaaaaaaaaaaa".toList, "bbbbbbbbbbbb".toList]

/-- Witness for C1: on `c1db` the longest matched token-aligned prefix of
the two-token target is `"mid"`'s two-token record, so the resolver answers
with a record carrying `"mid"`'s layers, not `"base"`'s. -/
theorem resolve_parent_longest_match_witness :
    ∃ (repo : String) (i : ImageRecord),
      get_image_parent c1db "top" c1toks.flatten = some (repo, i.image_tag) ∧
      i.fs_layers = ("aaaaaaaaaaaa" ++ "bbbbbbbbbbbb").toList ∧
      i.fs_layers ≠ "aaaaaaaaaaaa".toList :=
  (resolve_parent_longest_match c1db "top" c1toks (by decide) (by decide)).2.2
    "base" "mid"
    ⟨"aaaaaaaaaaaa".toList, "1.0", 5, 5⟩
    ⟨("aaaaaaaaaaaa" ++ "bbbbbbbbbbbb").toList, "2.0", 7, 7⟩
    1 2 (by decide) (by decide) (by decide) (by decide) (by decide)
    (by decide) (by decide) (by decide) (by decide) (by decide)
    (by
      intro j h1 h2
      have hl2 : c1toks.length = 2 := by decide
      omega)

/-- C10: called with an empty target layer sequence, `get_image_parent`
returns the empty result for every database and owning repository: the
token split of the empty sequence is empty, the prefix walk performs no
iterations, and the initial empty answer is returned without consulting any
record. -/
theorem resolve_parent_empty_target (db : ParentDb) (r : String) :
    splitTokens [] = [] ∧ get_image_parent db r [] = none := by
  constructor
  · rw [splitTokens]
    exact dif_pos rfl
  · unfold get_image_parent
    rw [show splitTokens [] = [] from by rw [splitTokens]; exact dif_pos rfl]
    rfl

/-- C8: when two records in two different candidate repositories both have
`fs_layers` equal to the same token-aligned prefix of the target, no longer
prefix matches any candidate record, and these are the only matches at that
prefix, `get_image_parent` returns the owner of the match encountered
second (later) during the scan over candidate repositories, overwriting the
earlier match. -/
theorem resolve_parent_tie_goes_to_later_match (db : ParentDb) (r : String)
    (toks : List (List Char)) (hlen : ∀ t ∈ toks, t.length = 12)
    (k : Nat) (hk1 : 1 ≤ k) (hk2 : k ≤ toks.length)
    (l₁ l₂ l₃ : List String) (ra rb : String) (A B : ImageRecord)
    (hsplit : candidates db r = l₁ ++ ra :: l₂ ++ rb :: l₃)
    (hA : A ∈ lookupDb db ra) (hAl : A.fs_layers = (toks.take k).flatten)
    (hB : B ∈ lookupDb db rb) (hBl : B.fs_layers = (toks.take k).flatten)
    (hBuniq : ∀ i ∈ lookupDb db rb, i.fs_layers = (toks.take k).flatten → i = B)
    (hl3 : ∀ repo ∈ l₃, ∀ i ∈ lookupDb db repo, i.fs_layers ≠ (toks.take k).flatten)
    (hmax : ∀ j, k < j → j ≤ toks.length →
      ¬ candidateMatch db (candidates db r) ((toks.take j).flatten)) :
    get_image_parent db r toks.flatten = some (rb, B.image_tag) := by
  have hlastB : lastMatch ((toks.take k).flatten) (lookupDb db rb) = some B :=
    lastMatch_eq_of_unique _ _ B hB hBl hBuniq
  have hafter : ∀ repo ∈ l₃, lastMatch ((toks.take k).flatten) (lookupDb db repo) = none := by
    intro repo hrepo
    rw [lastMatch_none_iff]
    exact hl3 repo hrepo
  have hlrm : lastRepoMatch db ((toks.take k).flatten) (candidates db r) = some (rb, B) := by
    have hshape : candidates db r = (l₁ ++ ra :: l₂) ++ rb :: l₃ := by
      rw [hsplit, List.append_assoc, List.cons_append]
    rw [hshape]
    exact lastRepoMatch_of_last db _ (l₁ ++ ra :: l₂) l₃ rb B hlastB hafter
  have hbest : bestMatch db (candidates db r) toks [] = some (rb, B) := by
    apply bestMatch_of_longest db (candidates db r) toks [] k (rb, B) hk1 hk2
    · intro j hj1 hj2
      rw [List.nil_append]
      exact hmax j hj1 hj2
    · rw [List.nil_append]
      exact hlrm
  rw [get_image_parent_eq db r toks hlen, hbest]

/-- Database used by the C8 witness: `"alpha"` and `"beta"` both hold a
record whose layers equal the one-token target; `"beta"` is scanned
second. -/
def c8db : ParentDb :=
  [("me", []),
   ("alpha", [⟨"aaaabbbbcccc".toList, "ta", 3, 3⟩]),
   ("beta", [⟨"aaaabbbbcccc".toList, "tb", 9, 9⟩])]

/-- Witness for C8: with two candidate repositories matching the same
one-token prefix, the later one (`"beta"`) wins the tie. -/
theorem resolve_parent_tie_goes_to_later_match_witness :
    get_image_parent c8db "me" (["aaaabbbbcccc".toList] : List (List Char)).flatten =
      some ("beta", "tb") :=
  resolve_parent_tie_goes_to_later_match c8db "me" ["aaaabbbbcccc".toList]
    (by decide) 1 (by decide) (by decide)
    [] [] [] "alpha" "beta"
    ⟨"aaaabbbbcccc".toList, "ta", 3, 3⟩ ⟨"aaaabbbbcccc".toList, "tb", 9, 9⟩
    (by decide) (by decide) (by decide) (by decide) (by decide) (by decide)
    (by decide)
    (by
      intro j h1 h2
      simp only [List.length_cons, List.length_nil] at h2
      omega)

/-- The staleness-watermark loop of `update_official_database`
(`populate_parent_db.py` lines 549-561): walk the repository's stored
records with `last_updated_time = 0`, `threshold = 30`, `n = 0`; break when
`n >= threshold`; a record that raises the watermark updates it, any other
record increments `n`. -/
def watermarkLoop : List ImageRecord → Int → Nat → Int
  | [], w, _ => w
  | img :: rest, w, n =>
    if n ≥ 30 then w
    else if img.last_updated > w then watermarkLoop rest img.last_updated n
    else watermarkLoop rest w (n + 1)

/-- The watermark computed for one repository (`populate_parent_db.py`
lines 549-561, starting from `last_updated_time = 0` and `n = 0`). -/
def computeWatermark (recs : List ImageRecord) : Int := watermarkLoop recs 0 0

/-- Number of records actually consumed by `watermarkLoop` before it stops
(same control flow as `watermarkLoop`). -/
def scanLenAux : List ImageRecord → Int → Nat → Nat
  | [], _, _ => 0
  | img :: rest, w, n =>
    if n ≥ 30 then 0
    else if img.last_updated > w then scanLenAux rest img.last_updated n + 1
    else scanLenAux rest w (n + 1) + 1

/-- Number of records scanned by the watermark computation. -/
def scanLen (recs : List ImageRecord) : Nat := scanLenAux recs 0 0

theorem watermarkLoop_eq_foldl :
    ∀ (recs : List ImageRecord) (w : Int) (n : Nat),
      watermarkLoop recs w n =
        ((recs.take (scanLenAux recs w n)).map (fun i => i.last_updated)).foldl max w := by
  intro recs
  induction recs with
  | nil => intro w n; simp [watermarkLoop, scanLenAux]
  | cons img rest ih =>
    intro w n
    rw [watermarkLoop, scanLenAux]
    by_cases h30 : n ≥ 30
    · rw [if_pos h30, if_pos h30]
      simp
    · rw [if_neg h30, if_neg h30]
      by_cases hup : img.last_updated > w
      · rw [if_pos hup, if_pos hup, List.take_succ_cons, List.map_cons, List.foldl_cons,
          max_eq_right (le_of_lt hup)]
        exact ih img.last_updated n
      · rw [if_neg hup, if_neg hup, List.take_succ_cons, List.map_cons, List.foldl_cons,
          max_eq_left (not_lt.mp hup)]
        exact ih w (n + 1)

/-- C3 (amended): the watermark scan of `update_official_database` keeps a
counter only of scanned records that FAILED to raise the watermark and
stops once that counter reaches 30, so records that raise the watermark do
not count toward the 30-record window and more than 30 records can be
scanned; the watermark equals the maximum `last_updated` (with floor 0)
over the records actually scanned, and once the counter has reached 30 the
remaining records never contribute. -/
theorem watermark_scan_characterization :
    (∀ recs : List ImageRecord,
      computeWatermark recs =
        ((recs.take (scanLen recs)).map (fun i => i.last_updated)).foldl max 0)
    ∧ (∀ (l : List ImageRecord) (w : Int), watermarkLoop l w 30 = w) := by
  constructor
  · intro recs
    exact watermarkLoop_eq_foldl recs 0 0
  · intro l w
    cases l with
    | nil => rw [watermarkLoop]
    | cons img rest => rw [watermarkLoop, if_pos (by omega)]

set_option maxRecDepth 4000 in
/-- Counterexample to C3 as stated: with 31 records whose `last_updated`
values are strictly increasing `1, 2, ..., 31`, the scan consumes all 31
records (not at most 30) and the watermark is 31, the value of the 31st
record, which a scan of at most the first 30 records (maximum 30) could
never produce. -/
theorem watermark_scan_counterexample :
    computeWatermark ((List.range 31).map (fun i => ⟨[], "t", (i : Int) + 1, 0⟩)) = 31
    ∧ scanLen ((List.range 31).map (fun i => ⟨[], "t", (i : Int) + 1, 0⟩)) = 31
    ∧ ((((List.range 31).map (fun i => (⟨[], "t", (i : Int) + 1, 0⟩ : ImageRecord))).take 30).map
        (fun i => i.last_updated)).foldl max 0 = 30 := by
  refine ⟨by decide, by decide, by decide⟩

/-- A decoded progress event of the streaming `client.pull` call: a Python
dict read through `line.get("status")`, `line.get("id")`,
`line.get("error")` (`populate_parent_db.py` lines 185-203). -/
structure PullEvent where
  status : Option String
  id : Option String
  error : Option String
deriving DecidableEq

/-- Whether `pat` occurs at the start of `s`. -/
def startsWithChars : List Char → List Char → Bool
  | [], _ => true
  | _ :: _, [] => false
  | a :: as, b :: bs => if a = b then startsWithChars as bs else false

/-- Whether `pat` occurs anywhere in `s` (the literal patterns given to
`re.search` in the source contain no effective metacharacters). -/
def containsChars (pat : List Char) : List Char → Bool
  | [] => startsWithChars pat []
  | c :: rest => if startsWithChars pat (c :: rest) then true else containsChars pat rest

/-- Substring test modelling `re.search(pat, s)` on the literal patterns of
`populate_parent_db.py`. -/
def reSearch (pat s : String) : Bool := containsChars pat.toList s.toList

/-- Python truthiness of `line.get("error")`: present and non-empty. -/
def errTruthy : Option String → Bool
  | none => false
  | some s => if s = "" then false else true

/-- The event is classified as a layer announcement
(`populate_parent_db.py` line 187): status `"Pulling fs layer"` or
`"Already exists"`. -/
def isAnnounce (e : PullEvent) : Bool :=
  if e.status = some "Pulling fs layer" then true
  else if e.status = some "Already exists" then true
  else false

/-- How one pull attempt over the event stream ends. -/
inductive AttemptEnd where
  | streamEnded
  | downloading
  | apiError (msg : String)
deriving DecidableEq

/-- One attempt of the stream loop of `get_layers_image`
(`populate_parent_db.py` lines 185-203): accumulate `line.get("id")` on an
announcement, raise `docker.errors.APIError` on a truthy `error` field
(classified by the `re.search` cascade of line 193, whose `or`/`and`
precedence makes it equivalent to "platform message or missing-manifest
message"), stop with `is_retrieved = True` on a `"Downloading"` status, and
ignore any other event. -/
def processPull (name : String) : List PullEvent → String → String × AttemptEnd
  | [], acc => (acc, .streamEnded)
  | e :: rest, acc =>
    if isAnnounce e then
      processPull name rest (acc ++ (e.id.getD ""))
    else if errTruthy e.error then
      if reSearch "cannot be used on this platform" (e.error.getD "")
          || (reSearch "no matching manifest" (e.error.getD "") && reSearch "microsoft" name)
          || reSearch "no matching manifest" (e.error.getD "") then
        (acc, .apiError "cannot be used on this platform")
      else
        (acc, .apiError "")
    else if e.status = some "Downloading" then
      (acc, .downloading)
    else
      processPull name rest acc

/-- Observable outcome of the whole retry loop of `get_layers_image`:
the returned `fs_layer_ids`, the number of pull attempts performed, and the
`time.sleep` delays performed between attempts, in order. -/
structure RunResult where
  fs_layer_ids : String
  attempts : Nat
  sleeps : List Nat
deriving DecidableEq

/-- The retrial constant of `get_layers_image` (`populate_parent_db.py`
line 174): `retrials = 3 + 2`. -/
def retrials : Nat := 3 + 2

/-- The inter-attempt delay of `get_layers_image` (`populate_parent_db.py`
line 175): `retrials_wait_time = 30` seconds. -/
def retrials_wait_time : Nat := 30

/-- The retry loop body of `get_layers_image` (`populate_parent_db.py`
lines 177-223) over the remaining values of `retrial`: break when
`is_retrieved`; otherwise run one pull attempt on that attempt's event
stream; on an `APIError` whose message mentions the incompatible platform,
break (keeping the accumulated ids); on a message mentioning `docker
login`, keep the accumulated ids and retry; on any other message, reset the
accumulated ids to the empty string and retry; `time.sleep` fires only when
`retrial < retrials - 1`. -/
def getLayersGo (name : String) (streams : Nat → List PullEvent) :
    List Nat → String → Bool → Nat → List Nat → RunResult
  | [], acc, _, attempts, sleeps => ⟨acc, attempts, sleeps⟩
  | retrial :: rest, acc, retrieved, attempts, sleeps =>
    if retrieved then ⟨acc, attempts, sleeps⟩
    else
      match processPull name (streams retrial) acc with
      | (acc2, .streamEnded) => getLayersGo name streams rest acc2 false (attempts + 1) sleeps
      | (acc2, .downloading) => getLayersGo name streams rest acc2 true (attempts + 1) sleeps
      | (acc2, .apiError msg) =>
        if reSearch "cannot be used on this platform" msg then
          ⟨acc2, attempts + 1, sleeps⟩
        else
          let acc3 := if reSearch "docker login" msg then acc2 else ""
          if retrial < retrials - 1 then
            getLayersGo name streams rest acc3 false (attempts + 1)
              (sleeps ++ [retrials_wait_time])
          else
            getLayersGo name streams rest acc3 false (attempts + 1) sleeps

/-- Shallow embedding of `get_layers_image` (`populate_parent_db.py` lines
154-225): the attempt index runs over `range(1, retrials)`, i.e. the list
`[1, 2, 3, 4]`; `streams k` is the event stream served by the registry to
attempt `k`. -/
def get_layers_image (name : String) (streams : Nat → List PullEvent) : RunResult :=
  getLayersGo name streams (List.range' 1 (retrials - 1)) "" false 0 []

theorem processPull_pre (name : String) :
    ∀ (pre : List PullEvent) (d : PullEvent) (post : List PullEvent) (acc : String),
      (∀ e ∈ pre, isAnnounce e = true ∨ (errTruthy e.error = false ∧ e.status ≠ some "Downloading")) →
      d.status = some "Downloading" → errTruthy d.error = false →
      processPull name (pre ++ d :: post) acc =
        (pre.foldl (fun a e => if isAnnounce e then a ++ e.id.getD "" else a) acc, .downloading) := by
  intro pre
  induction pre with
  | nil =>
    intro d post acc _ hd hde
    rw [List.nil_append, List.foldl_nil, processPull]
    have hann : isAnnounce d = false := by
      rw [isAnnounce, hd]
      decide
    rw [hann]
    simp only [Bool.false_eq_true, if_false]
    rw [hde]
    simp only [Bool.false_eq_true, if_false]
    rw [if_pos hd]
  | cons e pre2 ih =>
    intro d post acc hpre hd hde
    rw [List.cons_append, processPull, List.foldl_cons]
    rcases hpre e (List.mem_cons_self _ _) with hann | ⟨herr, hst⟩
    · rw [hann]
      simp only [if_true]
      rw [ih d post _ (fun x hx => hpre x (List.mem_cons_of_mem _ hx)) hd hde]
    · by_cases hann : isAnnounce e = true
      · rw [hann]
        simp only [if_true]
        rw [ih d post _ (fun x hx => hpre x (List.mem_cons_of_mem _ hx)) hd hde]
      · rw [Bool.not_eq_true] at hann
        rw [hann, herr]
        simp only [Bool.false_eq_true, if_false]
        rw [if_neg hst]
        rw [ih d post _ (fun x hx => hpre x (List.mem_cons_of_mem _ hx)) hd hde]

/-- C2: for every stream of pull progress events served to the first
attempt that consists of well-formed events `pre` (none with status
`"Downloading"` and none triggering the error branch) followed by the
first `"Downloading"` event `d` and an arbitrary remainder `post`,
`get_layers_image` accumulates exactly one identifier token per event of
`pre` whose status is `"Pulling fs layer"` or `"Already exists"`,
concatenated in announcement order, stops consuming at `d` (the returned
result does not depend on `post`), and returns that concatenation after a
single attempt with no sleeps. -/
theorem layer_extraction_stream (name : String) (pre : List PullEvent) (d : PullEvent)
    (post : List PullEvent) (streams : Nat → List PullEvent)
    (hpre : ∀ e ∈ pre, isAnnounce e = true ∨ (errTruthy e.error = false ∧ e.status ≠ some "Downloading"))
    (hd : d.status = some "Downloading") (hde : errTruthy d.error = false)
    (hs : streams 1 = pre ++ d :: post) :
    get_layers_image name streams =
      ⟨pre.foldl (fun a e => if isAnnounce e then a ++ e.id.getD "" else a) "", 1, []⟩ := by
  have hp : processPull name (streams 1) "" =
      (pre.foldl (fun a e => if isAnnounce e then a ++ e.id.getD "" else a) "", .downloading) := by
    rw [hs]
    exact processPull_pre name pre d post "" hpre hd hde
  have hr : List.range' 1 (retrials - 1) = [1, 2, 3, 4] := by decide
  rw [get_layers_image, hr, getLayersGo]
  simp only [Bool.false_eq_true, if_false]
  rw [hp]
  simp [getLayersGo]

/-- Witness for C2: two layer announcements, one uninteresting progress
event, a `"Downloading"` event, and a trailing announcement that must be
ignored. -/
theorem layer_extraction_stream_witness :
    get_layers_image "redis"
      (fun _ =>
        [⟨some "Pulling fs layer", some "aaaa11112222", none⟩,
         ⟨some "Waiting", none, none⟩,
         ⟨some "Already exists", some "bbbb33334444", none⟩,
         ⟨some "Downloading", some "zzzz00009999", none⟩,
         ⟨some "Pulling fs layer", some "cccc55556666", none⟩]) =
      ⟨"aaaa11112222" ++ "bbbb33334444", 1, []⟩ :=
  layer_extraction_stream "redis"
    [⟨some "Pulling fs layer", some "aaaa11112222", none⟩,
     ⟨some "Waiting", none, none⟩,
     ⟨some "Already exists", some "bbbb33334444", none⟩]
    ⟨some "Downloading", some "zzzz00009999", none⟩
    [⟨some "Pulling fs layer", some "cccc55556666", none⟩]
    (fun _ =>
      [⟨some "Pulling fs layer", some "aaaa11112222", none⟩,
       ⟨some "Waiting", none, none⟩,
       ⟨some "Already exists", some "bbbb33334444", none⟩,
       ⟨some "Downloading", some "zzzz00009999", none⟩,
       ⟨some "Pulling fs layer", some "cccc55556666", none⟩])
    (by decide) (by decide) (by decide) rfl

theorem getLayersGo_fail_step (name : String) (streams : Nat → List PullEvent)
    (rest : List Nat) (acc : String) (retrial attempts : Nat) (sleeps : List Nat) (m : String)
    (he : (processPull name (streams retrial) acc).2 = .apiError m)
    (hplat : reSearch "cannot be used on this platform" m = false)
    (hlogin : reSearch "docker login" m = false)
    (hlt : retrial < retrials - 1) :
    getLayersGo name streams (retrial :: rest) acc false attempts sleeps =
      getLayersGo name streams rest "" false (attempts + 1) (sleeps ++ [retrials_wait_time]) := by
  rcases hE : processPull name (streams retrial) acc with ⟨a, e2⟩
  rw [hE] at he
  simp only [] at he
  subst he
  rw [getLayersGo]
  simp only [Bool.false_eq_true, if_false]
  rw [hE]
  simp only [hplat, Bool.false_eq_true, if_false, hlogin, if_pos hlt]

theorem getLayersGo_fail_last (name : String) (streams : Nat → List PullEvent)
    (rest : List Nat) (acc : String) (retrial attempts : Nat) (sleeps : List Nat) (m : String)
    (he : (processPull name (streams retrial) acc).2 = .apiError m)
    (hplat : reSearch "cannot be used on this platform" m = false)
    (hlogin : reSearch "docker login" m = false)
    (hge : ¬ (retrial < retrials - 1)) :
    getLayersGo name streams (retrial :: rest) acc false attempts sleeps =
      getLayersGo name streams rest "" false (attempts + 1) sleeps := by
  rcases hE : processPull name (streams retrial) acc with ⟨a, e2⟩
  rw [hE] at he
  simp only [] at he
  subst he
  rw [getLayersGo]
  simp only [Bool.false_eq_true, if_false]
  rw [hE]
  simp only [hplat, Bool.false_eq_true, if_false, hlogin, if_neg hge]

/-- C4 (amended): when every pull attempt of `get_layers_image` hits a
transient failure (an `APIError` whose message mentions neither the
incompatible platform nor `docker login`), the accumulated layer sequence
is discarded and the pull is retried from scratch, up to a fixed budget of
4 attempts (`for retrial in range(1, 5)`) with a fixed 30-second delay
between consecutive attempts; when every attempt fails the call returns the
empty sequence, never a partial one. -/
theorem layer_extraction_retry_budget (name : String) (streams : Nat → List PullEvent)
    (msgs : Nat → String)
    (hfail : ∀ k ∈ ([1, 2, 3, 4] : List Nat),
      (processPull name (streams k) "").2 = .apiError (msgs k)
      ∧ reSearch "cannot be used on this platform" (msgs k) = false
      ∧ reSearch "docker login" (msgs k) = false) :
    get_layers_image name streams = ⟨"", 4, [30, 30, 30]⟩ := by
  obtain ⟨he1, hp1, hl1⟩ := hfail 1 (by decide)
  obtain ⟨he2, hp2, hl2⟩ := hfail 2 (by decide)
  obtain ⟨he3, hp3, hl3⟩ := hfail 3 (by decide)
  obtain ⟨he4, hp4, hl4⟩ := hfail 4 (by decide)
  have hr : List.range' 1 (retrials - 1) = [1, 2, 3, 4] := by decide
  rw [get_layers_image, hr]
  rw [getLayersGo_fail_step name streams _ _ _ _ _ _ he1 hp1 hl1 (by decide)]
  rw [getLayersGo_fail_step name streams _ _ _ _ _ _ he2 hp2 hl2 (by decide)]
  rw [getLayersGo_fail_step name streams _ _ _ _ _ _ he3 hp3 hl3 (by decide)]
  rw [getLayersGo_fail_last name streams _ _ _ _ _ _ he4 hp4 hl4 (by decide)]
  rw [getLayersGo]
  simp [retrials_wait_time]

/-- Witness for C4 (amended): a stream that reports a rate-limit error on
every attempt exhausts the 4-attempt budget with three 30-second delays and
yields the empty sequence. -/
theorem layer_extraction_retry_budget_witness :
    get_layers_image "nginx"
      (fun _ => [⟨none, none, some "toomanyrequests: rate limited"⟩]) =
      ⟨"", 4, [30, 30, 30]⟩ :=
  layer_extraction_retry_budget "nginx"
    (fun _ => [⟨none, none, some "toomanyrequests: rate limited"⟩])
    (fun _ => "") (by decide)

/-- Counterexample to C4 as stated: the retry loop `for retrial in
range(1, 3 + 2)` performs 4 pull attempts, not 5; with a stream failing on
every attempt the observed attempt count is 4. -/
theorem layer_extraction_retry_counterexample :
    (get_layers_image "redis" (fun _ => [⟨none, none, some "internal server error"⟩])).attempts = 4
    ∧ ¬ ((get_layers_image "redis"
        (fun _ => [⟨none, none, some "internal server error"⟩])).attempts = 5) := by
  exact ⟨by decide, by decide⟩

/-- The duplicate scan of `get_layers_official_repository`
(`populate_parent_db.py` lines 297-300): walk the already gathered images
and stop as soon as one has the same `fs_layers`. -/
def containsLayers : List ImageRecord → List Char → Bool
  | [], _ => false
  | img :: rest, L => if L = img.fs_layers then true else containsLayers rest L

/-- The insertion step of `get_layers_official_repository`
(`populate_parent_db.py` lines 293-331) for one extracted image: skip when
the extracted layer string is empty (falsy), skip when an already gathered
image has the same `fs_layers` (a duplicate publish under another tag,
logged and not stored), and otherwise append a new record built from the
two metadata queries (`upd` is the parsed `last_updated` when the tag query
succeeded, `created` the parsed `Created` when the secondary metadata query
succeeded; if either query fails nothing is appended). -/
def insertExtracted (images : List ImageRecord) (L : List Char) (tag : String)
    (upd : Option Int) (created : Option Int) : List ImageRecord :=
  if L = [] then images
  else if containsLayers images L then images
  else
    match upd, created with
    | some u, some c => images ++ [⟨L, tag, u, c⟩]
    | _, _ => images


theorem insertExtracted_eq (images : List ImageRecord) (L : List Char) (tag : String)
    (upd created : Option Int) :
    insertExtracted images L tag upd created =
      if L = [] then images
      else if containsLayers images L then images
      else
        match upd, created with
        | some u, some c => images ++ [⟨L, tag, u, c⟩]
        | _, _ => images := rfl

/-- The per-repository content invariant: all stored `fs_layers` values are
pairwise distinct. -/
def dedupInv (images : List ImageRecord) : Prop :=
  (images.map (fun i => i.fs_layers)).Nodup

instance (images : List ImageRecord) : Decidable (dedupInv images) := by
  unfold dedupInv
  infer_instance

theorem containsLayers_eq_false_iff (images : List ImageRecord) (L : List Char) :
    containsLayers images L = false ↔ ∀ i ∈ images, i.fs_layers ≠ L := by
  induction images with
  | nil => simp [containsLayers]
  | cons img rest ih =>
    rw [containsLayers]
    by_cases hc : L = img.fs_layers
    · simp [hc]
    · rw [if_neg hc]
      simp only [List.mem_cons]
      constructor
      · intro h i hi
        rcases hi with h1 | h2
        · rw [h1]; exact fun hh => hc hh.symm
        · exact ih.mp h i h2
      · intro h
        exact ih.mpr fun i hi => h i (Or.inr hi)

theorem countLayers_of_contains_false (images : List ImageRecord) (L : List Char)
    (h : containsLayers images L = false) :
    (images.filter (fun i => i.fs_layers = L)).length = 0 := by
  rw [List.length_eq_zero, List.filter_eq_nil]
  intro i hi
  simpa using (containsLayers_eq_false_iff images L).mp h i hi

/-- C6: the insertion step of repository extraction deduplicates by content
within one repository: (1) when the existing record list already holds a
record with an equal `layers` value, the new record is not inserted; (2)
one insertion preserves the at-most-one-record-per-layers invariant, and
(3) every sequence of insertions starting from the empty list yields a list
whose `layers` values are pairwise distinct; (4) inserting the same record
twice (with its metadata present) into an invariant-satisfying list leaves
exactly one entry with that `layers` value. -/
theorem insert_deduplicates_by_content :
    (∀ (images : List ImageRecord) (L : List Char) (tag : String) (upd created : Option Int),
      containsLayers images L = true → insertExtracted images L tag upd created = images)
    ∧ (∀ (images : List ImageRecord) (L : List Char) (tag : String) (upd created : Option Int),
      dedupInv images → dedupInv (insertExtracted images L tag upd created))
    ∧ (∀ inserts : List (List Char × String × Option Int × Option Int),
      dedupInv (inserts.foldl
        (fun images x => insertExtracted images x.1 x.2.1 x.2.2.1 x.2.2.2) []))
    ∧ (∀ (images : List ImageRecord) (L : List Char) (tag : String) (u c : Int),
      dedupInv images → L ≠ [] →
      ((insertExtracted (insertExtracted images L tag (some u) (some c)) L tag (some u) (some c)).filter
        (fun i => i.fs_layers = L)).length = 1) := by
  have hskip : ∀ (images : List ImageRecord) (L : List Char) (tag : String)
      (upd created : Option Int),
      containsLayers images L = true → insertExtracted images L tag upd created = images := by
    intro images L tag upd created h
    rw [insertExtracted_eq]
    by_cases hL : L = []
    · rw [if_pos hL]
    · rw [if_neg hL, h, if_pos rfl]
  have hpres : ∀ (images : List ImageRecord) (L : List Char) (tag : String)
      (upd created : Option Int),
      dedupInv images → dedupInv (insertExtracted images L tag upd created) := by
    intro images L tag upd created hinv
    rw [insertExtracted_eq]
    by_cases hL : L = []
    · rw [if_pos hL]; exact hinv
    · rw [if_neg hL]
      cases hc : containsLayers images L with
      | true => rw [if_pos rfl]; exact hinv
      | false =>
        simp only [Bool.false_eq_true, if_false]
        cases upd with
        | none => exact hinv
        | some u =>
          cases created with
          | none => exact hinv
          | some c =>
            show dedupInv (images ++ [⟨L, tag, u, c⟩])
            rw [dedupInv, List.map_append, List.nodup_append]
            refine ⟨hinv, by simp, ?_⟩
            intro x hx
            simp only [List.map_cons, List.map_nil, List.mem_singleton]
            intro hx2
            rw [List.mem_map] at hx
            obtain ⟨i, hi, hix⟩ := hx
            rw [hx2] at hix
            exact (containsLayers_eq_false_iff images L).mp hc i hi hix
  refine ⟨hskip, hpres, ?_, ?_⟩
  · intro inserts
    have hgen : ∀ (l : List (List Char × String × Option Int × Option Int))
        (images : List ImageRecord), dedupInv images →
        dedupInv (l.foldl
          (fun images x => insertExtracted images x.1 x.2.1 x.2.2.1 x.2.2.2) images) := by
      intro l
      induction l with
      | nil => intro images h; exact h
      | cons x rest ih =>
        intro images h
        rw [List.foldl_cons]
        exact ih _ (hpres images x.1 x.2.1 x.2.2.1 x.2.2.2 h)
    exact hgen inserts [] (by simp [dedupInv])
  · intro images L tag u c hinv hL
    cases hc : containsLayers images L with
    | false =>
      have hfirst : insertExtracted images L tag (some u) (some c) = images ++ [⟨L, tag, u, c⟩] := by
        rw [insertExtracted_eq, if_neg hL, hc]
        simp only [Bool.false_eq_true, if_false]
      have hcontains2 : containsLayers (images ++ [⟨L, tag, u, c⟩]) L = true := by
        by_contra hne
        rw [Bool.not_eq_true] at hne
        have hcc := (containsLayers_eq_false_iff _ L).mp hne ⟨L, tag, u, c⟩ (by simp)
        exact hcc rfl
      rw [hfirst, hskip _ L tag (some u) (some c) hcontains2]
      rw [List.filter_append, List.length_append, countLayers_of_contains_false images L hc]
      simp
    | true =>
      rw [hskip _ L tag (some u) (some c) hc, hskip _ L tag (some u) (some c) hc]
      have hmem : ∃ i ∈ images, i.fs_layers = L := by
        by_contra hne
        push_neg at hne
        have hcc := (containsLayers_eq_false_iff images L).mpr hne
        rw [hc] at hcc
        cases hcc
      obtain ⟨i0, hi0, hl0⟩ := hmem
      have hmem2 : i0 ∈ images.filter (fun i => i.fs_layers = L) :=
        List.mem_filter.mpr ⟨hi0, by simpa using hl0⟩
      have hle : 1 ≤ (images.filter (fun i => i.fs_layers = L)).length :=
        List.length_pos.mpr (List.ne_nil_of_mem hmem2)
      have hge : (images.filter (fun i => i.fs_layers = L)).length ≤ 1 := by
        by_contra hgt
        push_neg at hgt
        rw [dedupInv] at hinv
        obtain ⟨a, as, has⟩ : ∃ a as, images.filter (fun i => i.fs_layers = L) = a :: as := by
          cases hfe : images.filter (fun i => i.fs_layers = L) with
          | nil => rw [hfe] at hgt; simp at hgt
          | cons a as => exact ⟨a, as, rfl⟩
        obtain ⟨b, bs, hbs⟩ : ∃ b bs, as = b :: bs := by
          cases hase : as with
          | nil => rw [has, hase] at hgt; simp at hgt
          | cons b bs => exact ⟨b, bs, rfl⟩
        have hsub : List.Sublist
            ((images.filter (fun i => i.fs_layers = L)).map (fun i => i.fs_layers))
            (images.map (fun i => i.fs_layers)) :=
          List.Sublist.map _ (List.filter_sublist images)
        have hnd : ((images.filter (fun i => i.fs_layers = L)).map
            (fun i => i.fs_layers)).Nodup :=
          List.Nodup.sublist hsub hinv
        rw [has, hbs] at hnd
        have ha : a.fs_layers = L := by
          have haf : a ∈ images.filter (fun i => i.fs_layers = L) := by
            rw [has, hbs]; simp
          simpa using (List.mem_filter.mp haf).2
        have hb : b.fs_layers = L := by
          have hbf : b ∈ images.filter (fun i => i.fs_layers = L) := by
            rw [has, hbs]; simp
          simpa using (List.mem_filter.mp hbf).2
        simp only [List.map_cons, List.nodup_cons, List.mem_cons] at hnd
        exact hnd.1 (Or.inl (by rw [ha, hb]))
      omega

/-- Witness for C6: inserting the same record twice into a one-record
repository leaves exactly one entry for its `layers` value. -/
theorem insert_deduplicates_by_content_witness :
    ((insertExtracted
        (insertExtracted [⟨"dddd11112222".toList, "old", 1, 1⟩]
          "eeee33334444".toList "new" (some 2) (some 3))
        "eeee33334444".toList "new" (some 2) (some 3)).filter
      (fun i => i.fs_layers = "eeee33334444".toList)).length = 1 :=
  insert_deduplicates_by_content.2.2.2 [⟨"dddd11112222".toList, "old", 1, 1⟩]
    "eeee33334444".toList "new" 2 3 (by decide) (by decide)

/-- The inner duplicate check of `verify_duplicates`
(`populate_parent_db.py` lines 840-858): walk another repository's images;
when `image` and `img` have equal `fs_layers` and
`image.created - img.created > 0` (so `image` is strictly more recent),
clear the `is_image_parent` flag; otherwise (equal layers but `image` older
or equally old) leave the flag as it is. -/
def duplicateCheckRepo (image : ImageRecord) (imgs : List ImageRecord) : Bool :=
  imgs.foldl
    (fun b img =>
      if image.fs_layers = img.fs_layers ∧ image.created - img.created > 0 then false else b)
    true

/-- The repository walk of `verify_duplicates` (`populate_parent_db.py`
lines 837-862) for one `(repository, image)` pair: visit the other
repositories in dict order, re-initializing `is_image_parent = True` for
each; stop (`break`) as soon as one repository clears the flag.  The result
is `true` exactly when the image was flagged as a non-canonical
duplicate. -/
def verifyDupLoop (db : ParentDb) (image : ImageRecord) : List String → Bool
  | [] => false
  | repo :: rest =>
    if duplicateCheckRepo image (lookupDb db repo) = false then true
    else verifyDupLoop db image rest

/-- Whether `verify_duplicates` flags the record `image` of `repository` as
a non-canonical duplicate (`populate_parent_db.py` lines 831-862: the
candidate repositories are all keys except `repository`). -/
def flaggedNonCanonical (db : ParentDb) (repository : String) (image : ImageRecord) : Bool :=
  verifyDupLoop db image (candidates db repository)

theorem duplicateCheckRepo_false_absorbs (image : ImageRecord) :
    ∀ imgs : List ImageRecord,
      imgs.foldl
        (fun b img =>
          if image.fs_layers = img.fs_layers ∧ image.created - img.created > 0 then false else b)
        false = false := by
  intro imgs
  induction imgs with
  | nil => rfl
  | cons img rest ih =>
    rw [List.foldl_cons]
    by_cases hc : image.fs_layers = img.fs_layers ∧ image.created - img.created > 0
    · rw [if_pos hc]; exact ih
    · rw [if_neg hc]; exact ih

theorem duplicateCheckRepo_eq_false (image : ImageRecord) (imgs : List ImageRecord)
    (h : ∃ img ∈ imgs, image.fs_layers = img.fs_layers ∧ image.created - img.created > 0) :
    duplicateCheckRepo image imgs = false := by
  rw [duplicateCheckRepo]
  obtain ⟨img0, hmem, hcond⟩ := h
  induction imgs with
  | nil => cases hmem
  | cons img rest ih =>
    rw [List.foldl_cons]
    rcases List.mem_cons.mp hmem with h1 | h2
    · rw [← h1, if_pos hcond]
      exact duplicateCheckRepo_false_absorbs image rest
    · by_cases hc : image.fs_layers = img.fs_layers ∧ image.created - img.created > 0
      · rw [if_pos hc]
        exact duplicateCheckRepo_false_absorbs image rest
      · rw [if_neg hc]
        exact ih h2

theorem duplicateCheckRepo_eq_true (image : ImageRecord) (imgs : List ImageRecord)
    (h : ∀ img ∈ imgs, ¬ (image.fs_layers = img.fs_layers ∧ image.created - img.created > 0)) :
    duplicateCheckRepo image imgs = true := by
  rw [duplicateCheckRepo]
  induction imgs with
  | nil => rfl
  | cons img rest ih =>
    rw [List.foldl_cons, if_neg (h img (List.mem_cons_self _ _))]
    exact ih fun x hx => h x (List.mem_cons_of_mem _ hx)

theorem verifyDupLoop_true (db : ParentDb) (image : ImageRecord) :
    ∀ (repos : List String) (repo : String), repo ∈ repos →
      duplicateCheckRepo image (lookupDb db repo) = false →
      verifyDupLoop db image repos = true := by
  intro repos
  induction repos with
  | nil => intro repo h; cases h
  | cons r rest ih =>
    intro repo hmem hchk
    rw [verifyDupLoop]
    cases hr : duplicateCheckRepo image (lookupDb db r) with
    | false => rw [if_pos rfl]
    | true =>
      rw [if_neg (by intro hcon; cases hcon)]
      rcases List.mem_cons.mp hmem with h1 | h2
      · rw [h1] at hchk
        rw [hchk] at hr
        cases hr
      · exact ih repo h2 hchk

theorem verifyDupLoop_false (db : ParentDb) (image : ImageRecord) :
    ∀ repos : List String,
      (∀ repo ∈ repos, duplicateCheckRepo image (lookupDb db repo) = true) →
      verifyDupLoop db image repos = false := by
  intro repos
  induction repos with
  | nil => intro _; rfl
  | cons r rest ih =>
    intro h
    rw [verifyDupLoop, if_neg (by rw [h r (List.mem_cons_self _ _)]; intro hcon; cases hcon)]
    exact ih fun x hx => h x (List.mem_cons_of_mem _ hx)

theorem lookupDb_of_mem (db : ParentDb) (repo : String) (imgs : List ImageRecord)
    (hnd : (db.map Prod.fst).Nodup) (hmem : (repo, imgs) ∈ db) :
    lookupDb db repo = imgs := by
  induction db with
  | nil => cases hmem
  | cons p rest ih =>
    obtain ⟨r0, imgs0⟩ := p
    show (if r0 = repo then imgs0 else lookupDb rest repo) = imgs
    simp only [List.map_cons, List.nodup_cons] at hnd
    rcases List.mem_cons.mp hmem with h1 | h2
    · rw [Prod.mk.injEq] at h1
      rw [if_pos h1.1.symm]
      exact h1.2.symm
    · by_cases he : r0 = repo
      · exfalso
        apply hnd.1
        rw [List.mem_map]
        exact ⟨(repo, imgs), h2, by rw [he]⟩
      · rw [if_neg he]
        exact ih hnd.2 h2

theorem mem_candidates (db : ParentDb) (r r2 : String) (hnd : (db.map Prod.fst).Nodup)
    (hmem : r2 ∈ db.map Prod.fst) (hne : r2 ≠ r) : r2 ∈ candidates db r := by
  rw [candidates]
  exact List.mem_erase_of_ne hne |>.mpr hmem

theorem candidates_ne (db : ParentDb) (r r2 : String) (hnd : (db.map Prod.fst).Nodup)
    (hmem : r2 ∈ candidates db r) : r2 ≠ r := by
  rw [candidates] at hmem
  exact (List.Nodup.mem_erase_iff hnd).mp hmem |>.1

/-- C7: for every database and every pair of records lying in different
repositories with equal `fs_layers`, `verify_duplicates` flags the record
with the strictly larger `created` timestamp as the non-canonical
duplicate (its `is_image_parent` flag is cleared), while the record with
the smallest `created` among all equal-content records is the canonical
owner (its flag survives every comparison). -/
theorem duplicate_resolver_older_is_canonical
    (db : ParentDb) (hnd : (db.map Prod.fst).Nodup)
    (ra rb : String) (la lb : List ImageRecord) (A B : ImageRecord)
    (hma : (ra, la) ∈ db) (hmb : (rb, lb) ∈ db) (hne : ra ≠ rb)
    (hA : A ∈ la) (hB : B ∈ lb)
    (hlay : A.fs_layers = B.fs_layers) (hcr : A.created < B.created) :
    flaggedNonCanonical db rb B = true
    ∧ ((∀ p ∈ db, p.1 ≠ ra → ∀ C ∈ p.2, C.fs_layers = A.fs_layers → A.created ≤ C.created) →
        flaggedNonCanonical db ra A = false) := by
  constructor
  · have hmem : ra ∈ candidates db rb := by
      apply mem_candidates db rb ra hnd _ (fun h => hne h)
      rw [List.mem_map]
      exact ⟨(ra, la), hma, rfl⟩
    have hlook : lookupDb db ra = la := lookupDb_of_mem db ra la hnd hma
    have hchk : duplicateCheckRepo B (lookupDb db ra) = false := by
      rw [hlook]
      apply duplicateCheckRepo_eq_false
      exact ⟨A, hA, hlay.symm, by omega⟩
    exact verifyDupLoop_true db B (candidates db ra |> fun _ => candidates db rb) ra hmem hchk
  · intro hmin
    apply verifyDupLoop_false
    intro repo hrepo
    have hner : repo ≠ ra := candidates_ne db ra repo hnd hrepo
    have hkey : repo ∈ db.map Prod.fst := by
      rw [candidates] at hrepo
      exact List.mem_of_mem_erase hrepo
    obtain ⟨p, hp, hfst⟩ := List.mem_map.mp hkey
    obtain ⟨r0, l0⟩ := p
    simp only [] at hfst
    subst hfst
    have hlook : lookupDb db r0 = l0 := lookupDb_of_mem db r0 l0 hnd hp
    rw [hlook]
    apply duplicateCheckRepo_eq_true
    intro img hmem hcon
    obtain ⟨hl, hcreated⟩ := hcon
    have := hmin (r0, l0) hp hner img hmem hl.symm
    omega

/-- Witness for C7: the spec scenario, repositories `"foo"` (created 100)
and `"bar"` (created 200) both holding layers `"xyz"`; `bar`'s record is
flagged as the non-canonical duplicate and `foo`'s is not. -/
theorem duplicate_resolver_older_is_canonical_witness :
    flaggedNonCanonical
      [("foo", [⟨"xyz".toList, "t1", 0, 100⟩]), ("bar", [⟨"xyz".toList, "t2", 0, 200⟩])]
      "bar" ⟨"xyz".toList, "t2", 0, 200⟩ = true
    ∧ flaggedNonCanonical
      [("foo", [⟨"xyz".toList, "t1", 0, 100⟩]), ("bar", [⟨"xyz".toList, "t2", 0, 200⟩])]
      "foo" ⟨"xyz".toList, "t1", 0, 100⟩ = false :=
  ⟨(duplicate_resolver_older_is_canonical
      [("foo", [⟨"xyz".toList, "t1", 0, 100⟩]), ("bar", [⟨"xyz".toList, "t2", 0, 200⟩])]
      (by decide) "foo" "bar"
      [⟨"xyz".toList, "t1", 0, 100⟩] [⟨"xyz".toList, "t2", 0, 200⟩]
      ⟨"xyz".toList, "t1", 0, 100⟩ ⟨"xyz".toList, "t2", 0, 200⟩
      (by decide) (by decide) (by decide) (by decide) (by decide)
      (by decide) (by decide)).1,
   (duplicate_resolver_older_is_canonical
      [("foo", [⟨"xyz".toList, "t1", 0, 100⟩]), ("bar", [⟨"xyz".toList, "t2", 0, 200⟩])]
      (by decide) "foo" "bar"
      [⟨"xyz".toList, "t1", 0, 100⟩] [⟨"xyz".toList, "t2", 0, 200⟩]
      ⟨"xyz".toList, "t1", 0, 100⟩ ⟨"xyz".toList, "t2", 0, 200⟩
      (by decide) (by decide) (by decide) (by decide) (by decide)
      (by decide) (by decide)).2 (by decide)⟩

/-- The per-tag external data consumed by the update pass of
`update_official_database`: the layer string extracted by
`get_layers_image`, the parsed `last_updated` timestamp of the tag from
`get_repository_tag_query_v2` (none when the query fails, returns null or
carries no timestamp), and the parsed `Created` timestamp from
`microbadger_api.get_repository_tag_query_v1` (none when that query
fails). -/
structure TagInfo where
  layers : List Char
  upd : Option Int
  created : Option Int

/-- Python `list.remove(x)`: delete the first element equal to `x`. -/
def eraseFirst : List ImageRecord → ImageRecord → List ImageRecord
  | [], _ => []
  | y :: rest, x => if y = x then rest else y :: eraseFirst rest x

/-- Python `l[l.index(x)] = f(l[l.index(x)])`: mutate the first element
equal to `x` in place. -/
def updateFirst (f : ImageRecord → ImageRecord) : List ImageRecord → ImageRecord → List ImageRecord
  | [], _ => []
  | y :: rest, x => if y = x then f y :: rest else y :: updateFirst f rest x

theorem length_updateFirst (f : ImageRecord → ImageRecord) :
    ∀ (l : List ImageRecord) (x : ImageRecord), (updateFirst f l x).length = l.length := by
  intro l x
  induction l with
  | nil => rfl
  | cons y rest ih =>
    rw [updateFirst]
    by_cases hc : y = x
    · rw [if_pos hc]
      simp
    · rw [if_neg hc]
      simp [ih]

theorem length_eraseFirst_mem :
    ∀ (l : List ImageRecord) (x : ImageRecord), x ∈ l → (eraseFirst l x).length + 1 = l.length := by
  intro l x hmem
  induction l with
  | nil => cases hmem
  | cons y rest ih =>
    rw [eraseFirst]
    by_cases hc : y = x
    · rw [if_pos hc]
      rfl
    · rw [if_neg hc]
      have hx : x ∈ rest := by
        rcases List.mem_cons.mp hmem with h1 | h2
        · exact absurd h1.symm hc
        · exact h2
      simp only [List.length_cons]
      rw [← ih hx]

/-- The timestamp refresh of the `fs_layers`-match branch
(`populate_parent_db.py` lines 588-599): when the tag query succeeded and
its `last_updated` is strictly newer than the stored one, the first record
equal to `x` gets its `last_updated` replaced. -/
def refreshTimestamp (upd : Option Int) (imgs : List ImageRecord) (x : ImageRecord) :
    List ImageRecord :=
  match upd with
  | some u =>
    if u > x.last_updated then updateFirst (fun r => { r with last_updated := u }) imgs x
    else imgs
  | none => imgs

theorem length_refreshTimestamp (upd : Option Int) (imgs : List ImageRecord) (x : ImageRecord) :
    (refreshTimestamp upd imgs x).length = imgs.length := by
  cases upd with
  | none => rfl
  | some u =>
    show (if u > x.last_updated then
        updateFirst (fun r => { r with last_updated := u }) imgs x
      else imgs).length = imgs.length
    by_cases hu : u > x.last_updated
    · rw [if_pos hu, length_updateFirst]
    · rw [if_neg hu]

/-- The inner record loop of the update pass (`populate_parent_db.py`
lines 583-623) with Python's list-iterator semantics: the iterator index
`k` advances by one per step over the evolving list `imgs`.  For the
record `x` read at index `k`: if `x.fs_layers` equals the freshly
extracted layers, the first record equal to `x` gets its `last_updated`
refreshed when the tag's upstream timestamp is newer, `is_image_updated`
is set and `n` is incremented (lines 586-602); otherwise if `x.image_tag`
equals the tag being processed, either `x` is removed (when the new layers
were already added via another tag, lines 606-609) or the first record
equal to `x` has its `fs_layers`/`last_updated` replaced, the layers are
recorded in `added_image_layers` and `is_image_updated` is set — all of
this only when the upstream tag query succeeded (lines 611-623). -/
def innerLoop (t : String) (L : List Char) (upd : Option Int) (k : Nat)
    (imgs : List ImageRecord) (added : List (List Char)) (updated : Bool) (n : Nat) :
    List ImageRecord × List (List Char) × Bool × Nat :=
  if h : k < imgs.length then
    let x := imgs.get ⟨k, h⟩
    if x.fs_layers = L then
      innerLoop t L upd (k + 1) (refreshTimestamp upd imgs x) added true (n + 1)
    else if x.image_tag = t then
      if L ∈ added then
        innerLoop t L upd (k + 1) (eraseFirst imgs x) added updated n
      else
        match upd with
        | some u =>
          innerLoop t L upd (k + 1)
            (updateFirst (fun r => { r with fs_layers := L, last_updated := u }) imgs x)
            (L :: added) true n
        | none => innerLoop t L upd (k + 1) imgs added updated n
    else innerLoop t L upd (k + 1) imgs added updated n
  else (imgs, added, updated, n)
termination_by imgs.length - k
decreasing_by
  all_goals first
    | (rw [length_refreshTimestamp]; omega)
    | (rw [length_updateFirst]; omega)
    | (have hlen := length_eraseFirst_mem imgs (imgs.get ⟨k, h⟩) (imgs.get_mem _ _); omega)
    | omega

/-- One tag of the update pass (`populate_parent_db.py` lines 573-647,
one iteration of `for new_repository_tag in new_repository_tags`): when
the extracted layer string is empty (falsy) the tag is skipped entirely;
otherwise the inner record loop runs, and afterwards, when no record was
updated and the new layers were not already added via another tag, a
brand-new record is appended — provided both metadata queries succeeded
(lines 625-647). -/
def processTag (info : TagInfo) (t : String) (imgs : List ImageRecord)
    (added : List (List Char)) (n : Nat) : List ImageRecord × List (List Char) × Nat :=
  if info.layers = [] then (imgs, added, n)
  else
    match innerLoop t info.layers info.upd 0 imgs added false n with
    | (imgs2, added2, updated, n2) =>
      if updated = false ∧ info.layers ∉ added2 then
        match info.upd, info.created with
        | some u, some c => (imgs2 ++ [⟨info.layers, t, u, c⟩], info.layers :: added2, n2)
        | _, _ => (imgs2, added2, n2)
      else (imgs2, added2, n2)

/-- The tag walk of the update pass (`populate_parent_db.py` lines
569-647): `added_image_layers` starts empty, `n` starts at 0, and the walk
breaks once `n` reaches `non_updated_threshold = 30`. -/
def updateRepoPass (oracle : String → TagInfo) :
    List String → List ImageRecord × List (List Char) × Nat →
      List ImageRecord × List (List Char) × Nat
  | [], st => st
  | t :: rest, (imgs, added, n) =>
    if n ≥ 30 then (imgs, added, n)
    else updateRepoPass oracle rest (processTag (oracle t) t imgs added n)

/-- The per-repository update pass of `update_official_database`
(`populate_parent_db.py` lines 567-647) on the in-memory record list of
one repository: `oracle t` packages what the network returns for tag `t`
(extracted layers and parsed timestamps). -/
def update_repository (oracle : String → TagInfo) (tags : List String)
    (imgs : List ImageRecord) : List ImageRecord :=
  (updateRepoPass oracle tags (imgs, [], 0)).1

/-- C5: with a repository holding a single record whose layers are
`"aaa111222333"` and whose tag is `"6"`, and upstream reporting tag `"7"`
whose extracted layers are `"aaa111222333444555666"` (so no existing
record's layers equal the new sequence, and no existing record carries tag
`"7"`), the update pass appends a brand-new record for tag `"7"` with the
new layers and leaves the pre-existing record for tag `"6"` present and
unchanged, whatever the stored and upstream timestamps are. -/
theorem sync_appends_new_record_for_new_tag (oracle : String → TagInfo)
    (rec6 : ImageRecord) (u7 c7 : Int)
    (hlay : rec6.fs_layers = "aaa111222333".toList)
    (htag : rec6.image_tag = "6")
    (h7 : oracle "7" = ⟨"aaa111222333444555666".toList, some u7, some c7⟩) :
    update_repository oracle ["7"] [rec6] =
      [rec6, ⟨"aaa111222333444555666".toList, "7", u7, c7⟩] := by
  have h1 : ¬ (rec6.fs_layers = "aaa111222333444555666".toList) := by
    rw [hlay]; decide
  have h2 : ¬ (rec6.image_tag = "7") := by
    rw [htag]; decide
  have hinner : innerLoop "7" ("aaa111222333444555666".toList) (some u7) 0
      [rec6] [] false 0 = ([rec6], [], false, 0) := by
    rw [innerLoop]
    rw [dif_pos (by rw [List.length_singleton]; omega)]
    dsimp only [List.get]
    rw [if_neg h1, if_neg h2]
    rw [innerLoop]
    rw [dif_neg (by rw [List.length_singleton]; omega)]
  rw [update_repository, updateRepoPass]
  rw [if_neg (by omega)]
  rw [updateRepoPass, h7, processTag]
  dsimp only
  rw [if_neg (by decide)]
  rw [hinner]
  dsimp only
  rw [if_pos ⟨rfl, by simp⟩]
  exact rfl

/-- Witness for C5: the redis scenario with concrete timestamps. -/
theorem sync_appends_new_record_for_new_tag_witness :
    update_repository
      (fun t =>
        if t = "7" then ⟨"aaa111222333444555666".toList, some 70, some 77⟩
        else ⟨[], none, none⟩)
      ["7"] [⟨"aaa111222333".toList, "6", 10, 11⟩] =
      [⟨"aaa111222333".toList, "6", 10, 11⟩,
       ⟨"aaa111222333444555666".toList, "7", 70, 77⟩] :=
  sync_appends_new_record_for_new_tag
    (fun t =>
      if t = "7" then ⟨"aaa111222333444555666".toList, some 70, some 77⟩
      else ⟨[], none, none⟩)
    ⟨"aaa111222333".toList, "6", 10, 11⟩ 70 77 rfl rfl rfl

/-- Observable outcome of one run of `update_official_database`. -/
structure SyncOutcome where
  exceptionPropagated : Bool
  updatesAttempted : Bool
  completedNormally : Bool
deriving DecidableEq

/-- Control skeleton of `update_official_database`
(`populate_parent_db.py` lines 484-665): the whole body, starting with the
read and parse of the existing database file (lines 505-506), runs inside
a `try` whose only handler is a bare `except` that calls
`logging.exception("Failed to read parent_db Json file")` and returns
normally (lines 664-665).  `readResult` is the outcome of
`json.loads(json_file.readline())`; `phasesOk db` abstracts whether the
discovery and per-repository phases (lines 516-662) run to completion on
the loaded database.  No exception ever escapes to the caller, which is
why `exceptionPropagated` is identically `false`. -/
def update_official_database_outline (readResult : Except Unit ParentDb)
    (phasesOk : ParentDb → Bool) : SyncOutcome :=
  match readResult with
  | .error _ => ⟨false, false, false⟩
  | .ok db =>
    if phasesOk db then ⟨false, true, true⟩
    else ⟨false, true, false⟩

/-- C9 (amended): when reading or parsing the existing parent database
file fails at the start of a synchronization run, the run performs no
repository updates and does not report success — but the exception is
caught by the function's blanket handler and logged, not propagated to the
caller. -/
theorem sync_read_failure_swallowed_not_propagated :
    ∀ (e : Unit) (phasesOk : ParentDb → Bool),
      update_official_database_outline (Except.error e) phasesOk =
        ⟨false, false, false⟩ := by
  intro e phasesOk
  rfl

/-- Counterexample to C9 as stated: on a failing read, the claim requires
the failure to be propagated to the caller, but the bare `except` swallows
it — the run returns normally with `exceptionPropagated = false`. -/
theorem sync_read_failure_counterexample :
    (update_official_database_outline (Except.error ()) (fun _ => true)).exceptionPropagated
      = false
    ∧ ¬ ((update_official_database_outline (Except.error ())
        (fun _ => true)).exceptionPropagated = true) := by
  exact ⟨rfl, by decide⟩
